import Mathlib

/-!
A shallow embedding of the registration-and-trigger-dispatch engine of
`with-remote-state-caching` (src/createRemoteStateCachingContext.ts), together
with theorems settling the specification claims about it.

Modelling conventions:
- JavaScript strings are Lean `String`; `key.startsWith(name)` is embedded as
  `jsStartsWith` (prefix test on the character lists).
- JavaScript truthiness of optional strings (`options.name`, `logic.name`) is
  `truthyStr`: `undefined` and the empty string are falsy.
- The shared cache (the external collaborator's capability contract: get / set /
  delete / keys) is an association list from keys to values; `keys` returns the
  currently valid keys.  Setting `undefined` (which is what the extendable
  caching wrapper does when `toValue` yields `undefined`) removes the entry from
  the valid keys, and `invalidate` deletes the entry.
- Asynchronous dispatch (`Promise.all` over the registrations, then over the
  computed keys) is linearized into sequential folds; within the invalidation
  pass all operations are deletions and within the update pass no operation
  ever adds a key, so the observable properties proved below are insensitive to
  the interleaving order.  The strict sequencing between the two passes (the
  two separate awaited `Promise.all` blocks in the source) is preserved.
- Thrown errors are `Except.error`; `BadRequestError` carries its message.
- Dispatch is instrumented with an event log recording exactly the calls the
  source makes to user-supplied functions (`affects`, `update`) and to the
  wrapper's `invalidate`, so that claims about "which function was invoked with
  what" can be stated.
-/

namespace WithRemoteStateCaching

/-- embeds `BadRequestError` (src/errors/BadRequestError.ts); the metadata
object is dropped since only the message text and the error class matter to the
claims. -/
structure BadRequestError where
  message : String
deriving DecidableEq

/-- JavaScript truthiness of a possibly-absent string: `undefined` and `""` are
falsy, every other string is truthy. -/
def truthyStr : Option String → Bool
  | none => false
  | some s => !(s == "")

/-- embeds `extractNameFromRegistrationInputs`
(createRemoteStateCachingContext.ts, lines 45-74): `nameFromFunctionReference`
is `logic.name`, `nameFromExplicitOptions` is `options.name`; the `operation`
argument only feeds the error messages. -/
def extractNameFromRegistrationInputs (operation : String)
    (nameFromFunctionReference nameFromExplicitOptions : Option String) :
    Except BadRequestError String :=
  if truthyStr nameFromExplicitOptions && truthyStr nameFromFunctionReference
      && !(nameFromExplicitOptions == nameFromFunctionReference) then
    .error { message := "a " ++ operation ++ " was attempted to be registered with a name explicitly defined which differed from the name property of the wrapped logic function reference" }
  else
    let name := if truthyStr nameFromFunctionReference then nameFromFunctionReference
                else nameFromExplicitOptions
    match name with
    | some s =>
        if s == "" then .error { message := "name was not defined on " ++ operation ++ " registration" }
        else .ok s
    | none => .error { message := "name was not defined on " ++ operation ++ " registration" }

/-- embeds JavaScript `Array.prototype.join(sep)`. -/
def jsJoin (sep : String) : List String → String
  | [] => ""
  | [x] => x
  | x :: y :: rest => x ++ sep ++ jsJoin sep (y :: rest)

/-- embeds JavaScript `key.startsWith(pre)` as a prefix test on the character
lists of the two strings. -/
def jsStartsWith (key pre : String) : Bool :=
  pre.data.isPrefixOf key.data

/-- embeds the resolution of the underlying key-serialization method
(createRemoteStateCachingContext.ts, lines 201-202):
`options.serialize?.key ?? defaultOptions.serialize?.key ??
defaultKeySerializationMethod`.  The last fallback (the default of the external
`with-simple-caching` collaborator) is passed in abstractly. -/
def keySerializationMethodFromOptions {I : Type}
    (optionsKey contextDefaultKey : Option (I → String))
    (defaultKeySerializationMethod : I → String) : I → String :=
  optionsKey.getD (contextDefaultKey.getD defaultKeySerializationMethod)

/-- embeds `keySerializationMethodWithNamespace`
(createRemoteStateCachingContext.ts, lines 203-204):
`(...args) => [name, keySerializationMethodFromOptions(...args)].join('.')`. -/
def keySerializationMethodWithNamespace {I : Type} (name : String)
    (m : I → String) : I → String :=
  fun args => jsJoin "." [name, m args]

/-- the shared remote-state cache (the external capability contract of §6 of
the design: get / set / delete / keys), as an association list from keys to
currently valid values; `keys` must return every currently valid key. -/
def Cache (V : Type) : Type := List (String × V)

/-- `cache.get(key)`: the value of the first entry stored under `key`. -/
def cacheGet {V : Type} (c : Cache V) (k : String) : Option V :=
  match List.find? (fun p => p.1 == k) c with
  | some p => some p.2
  | none => none

/-- `cache.delete(key)` (what the wrapper's `invalidate` performs, and also the
effect of `set(key, undefined)`): the entry is removed from the valid keys. -/
def cacheDelete {V : Type} (c : Cache V) (k : String) : Cache V :=
  List.filter (fun p => !(p.1 == k)) c

/-- `cache.set(key, value)` for a key that currently exists (the only case the
dispatch engine's update path reaches, since it is guarded by a successful
`get`): the stored value is replaced in place. -/
def cacheReplace {V : Type} (c : Cache V) (k : String) (v : V) : Cache V :=
  List.map (fun p => if p.1 == k then (k, v) else p) c

/-- `cache.keys()`: the currently valid keys. -/
def cacheKeys {V : Type} (c : Cache V) : List String :=
  List.map (fun p => p.1) c

/-- the `{ keys?, inputs? }` object returned by a trigger's `affects` function
(RemoteStateQueryCachingOptions.ts); either set may be absent (`undefined`). -/
structure AffectsResult (I : Type) where
  keys : Option (List String)
  inputs : Option (List I)

/-- embeds `RemoteStateQueryInvalidationTrigger`: the referenced mutation is
kept by its name (the dispatch engine only compares `definition.mutation.name`)
and `affects` receives the mutation input, the mutation output and the cached
query keys, in the order the source passes them. -/
structure RemoteStateQueryInvalidationTrigger (I MI MO : Type) where
  mutationName : String
  affects : MI → MO → List String → AffectsResult I

/-- embeds `RemoteStateQueryUpdateTrigger`: an invalidation trigger shape plus
the `update` transform from the deserialized cached query output and the
mutation input/output to the replacement output. -/
structure RemoteStateQueryUpdateTrigger (I MI MO O : Type) where
  mutationName : String
  affects : MI → MO → List String → AffectsResult I
  update : O → MI → MO → O

/-- embeds `RemoteStateCacheContextQueryRegistration`: the query's resolved
name, the underlying (pre-namespace) key-serialization method and the value
(de)serialization closed over by the extendable-caching wrapper, and the two
trigger lists. -/
structure RemoteStateCacheContextQueryRegistration (I V O MI MO : Type) where
  name : String
  keySerializationMethod : I → String
  invalidatedBy : List (RemoteStateQueryInvalidationTrigger I MI MO)
  updatedBy : List (RemoteStateQueryUpdateTrigger I MI MO O)
  deserializeValue : V → O
  serializeValue : O → V

/-- embeds `registerQueryToRemoteStateContext`
(createRemoteStateCachingContext.ts, lines 174-183): the context's `queries`
map in insertion order; a duplicate name throws a `BadRequestError` before the
map is touched, otherwise the registration is inserted. -/
def registerQueryToRemoteStateContext {I V O MI MO : Type}
    (queries : List (RemoteStateCacheContextQueryRegistration I V O MI MO))
    (registration : RemoteStateCacheContextQueryRegistration I V O MI MO) :
    Except BadRequestError (List (RemoteStateCacheContextQueryRegistration I V O MI MO)) :=
  if queries.any (fun r => r.name == registration.name) then
    .error { message := "a query with this name was already registered to the context. these names should be unique" }
  else
    .ok (queries ++ [registration])

/-- embeds `addTrigger` (createRemoteStateCachingContext.ts, lines 229-238):
the runtime body is two independent truthiness guards followed by `push`; the
mutual exclusion of the two arms lives only in the static `PickOne` type. -/
def addTrigger {I V O MI MO : Type}
    (registration : RemoteStateCacheContextQueryRegistration I V O MI MO)
    (invalidatedBy : Option (RemoteStateQueryInvalidationTrigger I MI MO))
    (updatedBy : Option (RemoteStateQueryUpdateTrigger I MI MO O)) :
    RemoteStateCacheContextQueryRegistration I V O MI MO :=
  let r1 := match invalidatedBy with
    | some t => { registration with invalidatedBy := registration.invalidatedBy ++ [t] }
    | none => registration
  match updatedBy with
  | some t => { r1 with updatedBy := r1.updatedBy ++ [t] }
  | none => r1

/-- observable events of one dispatch run, recorded exactly where the source
calls the corresponding function: `affectsInvalidation` / `affectsUpdate` when
a matched trigger's `affects` is invoked (with the `cachedQueryKeys` it was
given), `invalidated` when the wrapper's `invalidate` is invoked for a key, and
`updateInvoked` when a trigger's user-supplied `update` transform is invoked
(with the deserialized cached output it was given). -/
inductive DispatchEvent (O : Type) where
  | affectsInvalidation (queryName : String) (cachedQueryKeys : List String)
  | affectsUpdate (queryName : String) (cachedQueryKeys : List String)
  | invalidated (key : String)
  | updateInvoked (queryName : String) (key : String) (cachedQueryOutput : O)
deriving DecidableEq

/-- the state threaded through a dispatch run: the shared cache plus the event
log. -/
structure DispatchState (V O : Type) where
  cache : Cache V
  events : List (DispatchEvent O)

/-- one `invalidate({ forKey })` call of the dispatch engine: delete the entry
and record the invalidation. -/
def invalidateKeyStep {V O : Type} (s : DispatchState V O) (k : String) :
    DispatchState V O :=
  { cache := cacheDelete s.cache k, events := s.events ++ [.invalidated k] }

/-- the invalidation pass of `onMutationOutput` for one registered query
(createRemoteStateCachingContext.ts, lines 262-287): find the first
`invalidatedBy` definition whose `mutation.name` equals the executed mutation's
name (`Array.prototype.find`); if none, skip; otherwise filter the cache's keys
to this query's namespace with `key.startsWith(registration.name)`, invoke the
trigger's `affects`, and invalidate every returned key directly and every
returned input by recomputing its namespaced key. -/
def onMutationOutputInvalidationStep {I V O MI MO : Type} (mutationName : String)
    (mutationInput : MI) (mutationOutput : MO) (st : DispatchState V O)
    (registration : RemoteStateCacheContextQueryRegistration I V O MI MO) :
    DispatchState V O :=
  match registration.invalidatedBy.find? (fun d => d.mutationName == mutationName) with
  | none => st
  | some definition =>
      let cachedQueryKeys :=
        (cacheKeys st.cache).filter (fun k => jsStartsWith k registration.name)
      let invalidate := definition.affects mutationInput mutationOutput cachedQueryKeys
      let stA : DispatchState V O :=
        { st with events := st.events ++ [.affectsInvalidation registration.name cachedQueryKeys] }
      let stK := match invalidate.keys with
        | some ks => ks.foldl invalidateKeyStep stA
        | none => stA
      match invalidate.inputs with
      | some is => is.foldl
          (fun s i => invalidateKeyStep s
            (keySerializationMethodWithNamespace registration.name
              registration.keySerializationMethod i)) stK
      | none => stK

/-- one `update({ forKey | forInput, toValue })` call of the dispatch engine,
for one affected key: the wrapper reads the current cached value and applies
the `toValue` closure of createRemoteStateCachingContext.ts lines 310-321,
which invokes the trigger's `update` on the deserialized cached output only
when the cached value is truthy (`cachedValue ? ... : undefined`); when the
cached value is absent or falsy, `toValue` yields `undefined` and the wrapper's
`set(key, undefined)` leaves the entry invalid. -/
def updateKeyViaTrigger {I V O MI MO : Type} (truthyV : V → Bool)
    (registration : RemoteStateCacheContextQueryRegistration I V O MI MO)
    (definition : RemoteStateQueryUpdateTrigger I MI MO O)
    (mutationInput : MI) (mutationOutput : MO) (s : DispatchState V O)
    (k : String) : DispatchState V O :=
  match cacheGet s.cache k with
  | some v =>
      if truthyV v then
        let out := registration.deserializeValue v
        let newOut := definition.update out mutationInput mutationOutput
        { cache := cacheReplace s.cache k (registration.serializeValue newOut),
          events := s.events ++ [.updateInvoked registration.name k out] }
      else { s with cache := cacheDelete s.cache k }
  | none => { s with cache := cacheDelete s.cache k }

/-- the update pass of `onMutationOutput` for one registered query
(createRemoteStateCachingContext.ts, lines 290-327): find the first `updatedBy`
definition for this mutation; if none, skip; otherwise re-fetch and filter the
cache's keys, invoke the trigger's `affects`, and update every affected key and
every affected input's recomputed namespaced key via `updateKeyViaTrigger`. -/
def onMutationOutputUpdateStep {I V O MI MO : Type} (truthyV : V → Bool)
    (mutationName : String) (mutationInput : MI) (mutationOutput : MO)
    (st : DispatchState V O)
    (registration : RemoteStateCacheContextQueryRegistration I V O MI MO) :
    DispatchState V O :=
  match registration.updatedBy.find? (fun d => d.mutationName == mutationName) with
  | none => st
  | some definition =>
      let cachedQueryKeys :=
        (cacheKeys st.cache).filter (fun k => jsStartsWith k registration.name)
      let affected := definition.affects mutationInput mutationOutput cachedQueryKeys
      let stA : DispatchState V O :=
        { st with events := st.events ++ [.affectsUpdate registration.name cachedQueryKeys] }
      let stK := match affected.keys with
        | some ks => ks.foldl
            (updateKeyViaTrigger truthyV registration definition mutationInput mutationOutput) stA
        | none => stA
      match affected.inputs with
      | some is => is.foldl
          (fun s i => updateKeyViaTrigger truthyV registration definition
            mutationInput mutationOutput s
            (keySerializationMethodWithNamespace registration.name
              registration.keySerializationMethod i)) stK
      | none => stK

/-- embeds `onMutationOutput` (createRemoteStateCachingContext.ts, lines
247-328): the invalidation pass over all registered queries is awaited to
completion (first `await Promise.all`), and only then the update pass over all
registered queries runs (second `await Promise.all`). -/
def onMutationOutput {I V O MI MO : Type} (truthyV : V → Bool)
    (registrations : List (RemoteStateCacheContextQueryRegistration I V O MI MO))
    (mutationName : String) (mutationInput : MI) (mutationOutput : MO)
    (cache : Cache V) : DispatchState V O :=
  let afterInvalidation := registrations.foldl
    (onMutationOutputInvalidationStep mutationName mutationInput mutationOutput)
    { cache := cache, events := [] }
  registrations.foldl
    (onMutationOutputUpdateStep truthyV mutationName mutationInput mutationOutput)
    afterInvalidation

/-- embeds the `execute` function built by `withRemoteStateMutationRegistration`
(createRemoteStateCachingContext.ts, lines 344-348): `await logic(...args)` has
no surrounding try/catch, so a rejection propagates unchanged and
`onMutationOutput` is only reached when the logic resolved; on resolution the
dispatch runs to completion before the resolved output is returned. -/
def executeMutation {I V O MI MO E : Type} (truthyV : V → Bool)
    (registrations : List (RemoteStateCacheContextQueryRegistration I V O MI MO))
    (mutationName : String) (logic : MI → Except E MO) (args : MI)
    (cache : Cache V) : Except E (MO × DispatchState V O) :=
  match logic args with
  | .error e => .error e
  | .ok result =>
      .ok (result, onMutationOutput truthyV registrations mutationName args result cache)

/-! ### Helper lemmas about the cache primitives and dispatch folds -/

theorem foldl_preserves {α β : Type} {P : β → Prop} (f : β → α → β)
    (h : ∀ b a, P b → P (f b a)) :
    ∀ (l : List α) (b : β), P b → P (l.foldl f b)
  | [], _, hb => hb
  | a :: l, b, hb => foldl_preserves f h l (f b a) (h b a hb)

theorem cacheKeys_cacheDelete_subset {V : Type} (c : Cache V) (k : String) :
    cacheKeys (cacheDelete c k) ⊆ cacheKeys c := by
  intro x hx
  simp only [cacheKeys, cacheDelete, List.mem_map] at hx ⊢
  obtain ⟨p, hp, rfl⟩ := hx
  exact ⟨p, (List.mem_filter.mp hp).1, rfl⟩

theorem not_mem_cacheKeys_cacheDelete {V : Type} (c : Cache V) (k : String) :
    k ∉ cacheKeys (cacheDelete c k) := by
  intro hx
  simp only [cacheKeys, cacheDelete, List.mem_map] at hx
  obtain ⟨p, hp, hpk⟩ := hx
  have h2 := (List.mem_filter.mp hp).2
  rw [hpk] at h2
  simp at h2

theorem not_mem_cacheKeys_cacheDelete_of_not_mem {V : Type} (c : Cache V)
    (k k2 : String) (h : k ∉ cacheKeys c) : k ∉ cacheKeys (cacheDelete c k2) :=
  fun hx => h (cacheKeys_cacheDelete_subset c k2 hx)

theorem cacheKeys_cacheReplace {V : Type} (c : Cache V) (k : String) (v : V) :
    cacheKeys (cacheReplace c k v) = cacheKeys c := by
  unfold cacheKeys cacheReplace
  rw [List.map_map]
  have hfun : ((fun p : String × V => p.1) ∘ fun p : String × V =>
      if p.1 == k then (k, v) else p) = fun p : String × V => p.1 := by
    funext p
    by_cases h : p.1 = k
    · simp [Function.comp, h]
    · simp [Function.comp, h]
  rw [hfun]

theorem events_invalidateKeyStep {V O : Type} (s : DispatchState V O) (k : String) :
    (invalidateKeyStep s k).events = s.events ++ [DispatchEvent.invalidated k] := rfl

theorem cache_invalidateKeyStep {V O : Type} (s : DispatchState V O) (k : String) :
    (invalidateKeyStep s k).cache = cacheDelete s.cache k := rfl

theorem not_mem_cacheKeys_after_foldl_invalidate {V O α : Type} (kf : α → String) :
    ∀ (l : List α) (s : DispatchState V O) (k : String),
    ((∃ a ∈ l, kf a = k) ∨ k ∉ cacheKeys s.cache) →
    k ∉ cacheKeys ((l.foldl (fun s a => invalidateKeyStep s (kf a)) s)).cache := by
  intro l
  induction l with
  | nil =>
      intro s k h
      rcases h with ⟨a, ha, _⟩ | h
      · exact absurd ha (List.not_mem_nil a)
      · exact h
  | cons a l ih =>
      intro s k h
      rcases h with ⟨a0, ha0, hk⟩ | h
      · rcases List.mem_cons.mp ha0 with rfl | hmem
        · exact ih (invalidateKeyStep s (kf a0)) k (Or.inr (hk ▸ not_mem_cacheKeys_cacheDelete s.cache (kf a0)))
        · exact ih (invalidateKeyStep s (kf a)) k (Or.inl ⟨a0, hmem, hk⟩)
      · exact ih (invalidateKeyStep s (kf a)) k
          (Or.inr (not_mem_cacheKeys_cacheDelete_of_not_mem s.cache k (kf a) h))

theorem cacheKeys_updateKeyViaTrigger_subset {I V O MI MO : Type}
    (truthyV : V → Bool)
    (registration : RemoteStateCacheContextQueryRegistration I V O MI MO)
    (definition : RemoteStateQueryUpdateTrigger I MI MO O)
    (mutationInput : MI) (mutationOutput : MO) (s : DispatchState V O)
    (k : String) :
    cacheKeys (updateKeyViaTrigger truthyV registration definition mutationInput
      mutationOutput s k).cache ⊆ cacheKeys s.cache := by
  unfold updateKeyViaTrigger
  cases hget : cacheGet s.cache k with
  | none => exact cacheKeys_cacheDelete_subset s.cache k
  | some v =>
      by_cases ht : truthyV v
      · simp only [ht, if_true]
        rw [cacheKeys_cacheReplace]
        exact fun x hx => hx
      · simp only [ht, if_false]
        exact cacheKeys_cacheDelete_subset s.cache k

theorem events_updateKeyViaTrigger_cases {I V O MI MO : Type}
    (truthyV : V → Bool)
    (registration : RemoteStateCacheContextQueryRegistration I V O MI MO)
    (definition : RemoteStateQueryUpdateTrigger I MI MO O)
    (mutationInput : MI) (mutationOutput : MO) (s : DispatchState V O)
    (k : String) :
    (updateKeyViaTrigger truthyV registration definition mutationInput
      mutationOutput s k).events = s.events ∨
    ∃ v, (updateKeyViaTrigger truthyV registration definition mutationInput
      mutationOutput s k).events = s.events ++
        [DispatchEvent.updateInvoked registration.name k (registration.deserializeValue v)] := by
  unfold updateKeyViaTrigger
  cases hget : cacheGet s.cache k with
  | none => exact Or.inl rfl
  | some v =>
      by_cases ht : truthyV v
      · exact Or.inr ⟨v, by simp [ht]⟩
      · exact Or.inl (by simp [ht])

/-! ### Preservation skeletons for the two dispatch passes -/

theorem onMutationOutputInvalidationStep_preserves {I V O MI MO : Type}
    {P : DispatchState V O → Prop}
    (hstep : ∀ (s : DispatchState V O) (k : String), P s → P (invalidateKeyStep s k))
    (haff : ∀ (s : DispatchState V O) (qn : String), P s →
      P { s with events := s.events ++
        [DispatchEvent.affectsInvalidation qn
          ((cacheKeys s.cache).filter (fun k => jsStartsWith k qn))] })
    (mutationName : String) (mutationInput : MI) (mutationOutput : MO)
    (st : DispatchState V O)
    (registration : RemoteStateCacheContextQueryRegistration I V O MI MO)
    (h : P st) :
    P (onMutationOutputInvalidationStep mutationName mutationInput mutationOutput
        st registration) := by
  unfold onMutationOutputInvalidationStep
  cases hfind : registration.invalidatedBy.find? (fun d => d.mutationName == mutationName) with
  | none => exact h
  | some d =>
      have hA := haff st registration.name h
      cases hkeys : (d.affects mutationInput mutationOutput
          ((cacheKeys st.cache).filter (fun k => jsStartsWith k registration.name))).keys with
      | none =>
          cases hinputs : (d.affects mutationInput mutationOutput
              ((cacheKeys st.cache).filter (fun k => jsStartsWith k registration.name))).inputs with
          | none => simp only [hkeys, hinputs]; exact hA
          | some is =>
              simp only [hkeys, hinputs]
              exact foldl_preserves _ (fun b a hb => hstep b _ hb) is _ hA
      | some ks =>
          have hK := foldl_preserves invalidateKeyStep hstep ks _ hA
          cases hinputs : (d.affects mutationInput mutationOutput
              ((cacheKeys st.cache).filter (fun k => jsStartsWith k registration.name))).inputs with
          | none => simp only [hkeys, hinputs]; exact hK
          | some is =>
              simp only [hkeys, hinputs]
              exact foldl_preserves _ (fun b a hb => hstep b _ hb) is _ hK

theorem onMutationOutputUpdateStep_preserves {I V O MI MO : Type}
    {P : DispatchState V O → Prop} (truthyV : V → Bool)
    (hstep : ∀ (registration : RemoteStateCacheContextQueryRegistration I V O MI MO)
      (definition : RemoteStateQueryUpdateTrigger I MI MO O) (mutationInput : MI)
      (mutationOutput : MO) (s : DispatchState V O) (k : String), P s →
      P (updateKeyViaTrigger truthyV registration definition mutationInput
          mutationOutput s k))
    (haff : ∀ (s : DispatchState V O) (qn : String), P s →
      P { s with events := s.events ++
        [DispatchEvent.affectsUpdate qn
          ((cacheKeys s.cache).filter (fun k => jsStartsWith k qn))] })
    (mutationName : String) (mutationInput : MI) (mutationOutput : MO)
    (st : DispatchState V O)
    (registration : RemoteStateCacheContextQueryRegistration I V O MI MO)
    (h : P st) :
    P (onMutationOutputUpdateStep truthyV mutationName mutationInput mutationOutput
        st registration) := by
  unfold onMutationOutputUpdateStep
  cases hfind : registration.updatedBy.find? (fun d => d.mutationName == mutationName) with
  | none => exact h
  | some d =>
      have hA := haff st registration.name h
      cases hkeys : (d.affects mutationInput mutationOutput
          ((cacheKeys st.cache).filter (fun k => jsStartsWith k registration.name))).keys with
      | none =>
          cases hinputs : (d.affects mutationInput mutationOutput
              ((cacheKeys st.cache).filter (fun k => jsStartsWith k registration.name))).inputs with
          | none => simp only [hkeys, hinputs]; exact hA
          | some is =>
              simp only [hkeys, hinputs]
              exact foldl_preserves _
                (fun b a hb => hstep registration d mutationInput mutationOutput b _ hb) is _ hA
      | some ks =>
          have hK := foldl_preserves _
            (fun b a hb => hstep registration d mutationInput mutationOutput b a hb) ks _ hA
          cases hinputs : (d.affects mutationInput mutationOutput
              ((cacheKeys st.cache).filter (fun k => jsStartsWith k registration.name))).inputs with
          | none => simp only [hkeys, hinputs]; exact hK
          | some is =>
              simp only [hkeys, hinputs]
              exact foldl_preserves _
                (fun b a hb => hstep registration d mutationInput mutationOutput b _ hb) is _ hK

/-! ### The namespacing invariant of the dispatch event log -/

/-- every `cachedQueryKeys` list handed to a trigger's `affects` consists of
keys that start with the emitting query's name. -/
def affectsEventKeysNamespaced {O : Type} : DispatchEvent O → Prop
  | .affectsInvalidation qn ks => ∀ k ∈ ks, jsStartsWith k qn = true
  | .affectsUpdate qn ks => ∀ k ∈ ks, jsStartsWith k qn = true
  | .invalidated _ => True
  | .updateInvoked _ _ _ => True

def eventsNamespaced {V O : Type} (s : DispatchState V O) : Prop :=
  ∀ e ∈ s.events, affectsEventKeysNamespaced e

theorem eventsNamespaced_invalidateKeyStep {V O : Type} (s : DispatchState V O)
    (k : String) (h : eventsNamespaced s) :
    eventsNamespaced (invalidateKeyStep s k) := by
  intro e he
  rw [events_invalidateKeyStep] at he
  rcases List.mem_append.mp he with he | he
  · exact h e he
  · rw [List.mem_singleton.mp he]
    trivial

theorem eventsNamespaced_affectsInvalidation {V O : Type} (s : DispatchState V O)
    (qn : String) (h : eventsNamespaced s) :
    eventsNamespaced { s with events := s.events ++
      [DispatchEvent.affectsInvalidation qn
        ((cacheKeys s.cache).filter (fun k => jsStartsWith k qn))] } := by
  intro e he
  rcases List.mem_append.mp he with he | he
  · exact h e he
  · rw [List.mem_singleton.mp he]
    exact fun k hk => (List.mem_filter.mp hk).2

theorem eventsNamespaced_affectsUpdate {V O : Type} (s : DispatchState V O)
    (qn : String) (h : eventsNamespaced s) :
    eventsNamespaced { s with events := s.events ++
      [DispatchEvent.affectsUpdate qn
        ((cacheKeys s.cache).filter (fun k => jsStartsWith k qn))] } := by
  intro e he
  rcases List.mem_append.mp he with he | he
  · exact h e he
  · rw [List.mem_singleton.mp he]
    exact fun k hk => (List.mem_filter.mp hk).2

theorem eventsNamespaced_updateKeyViaTrigger {I V O MI MO : Type}
    (truthyV : V → Bool)
    (registration : RemoteStateCacheContextQueryRegistration I V O MI MO)
    (definition : RemoteStateQueryUpdateTrigger I MI MO O)
    (mutationInput : MI) (mutationOutput : MO) (s : DispatchState V O)
    (k : String) (h : eventsNamespaced s) :
    eventsNamespaced (updateKeyViaTrigger truthyV registration definition
      mutationInput mutationOutput s k) := by
  intro e he
  rcases events_updateKeyViaTrigger_cases truthyV registration definition
      mutationInput mutationOutput s k with hc | ⟨v, hc⟩
  · rw [hc] at he
    exact h e he
  · rw [hc] at he
    rcases List.mem_append.mp he with he | he
    · exact h e he
    · rw [List.mem_singleton.mp he]
      trivial

theorem onMutationOutput_eventsNamespaced {I V O MI MO : Type} (truthyV : V → Bool)
    (registrations : List (RemoteStateCacheContextQueryRegistration I V O MI MO))
    (mutationName : String) (mutationInput : MI) (mutationOutput : MO)
    (cache : Cache V) :
    eventsNamespaced (onMutationOutput truthyV registrations mutationName
      mutationInput mutationOutput cache) := by
  unfold onMutationOutput
  apply foldl_preserves
  · intro b a hb
    exact onMutationOutputUpdateStep_preserves truthyV
      (fun r d mi mo s k hs => eventsNamespaced_updateKeyViaTrigger truthyV r d mi mo s k hs)
      (fun s qn hs => eventsNamespaced_affectsUpdate s qn hs)
      mutationName mutationInput mutationOutput b a hb
  · apply foldl_preserves
    · intro b a hb
      exact onMutationOutputInvalidationStep_preserves
        (fun s k hs => eventsNamespaced_invalidateKeyStep s k hs)
        (fun s qn hs => eventsNamespaced_affectsInvalidation s qn hs)
        mutationName mutationInput mutationOutput b a hb
    · intro e he
      exact absurd he (List.not_mem_nil e)

/-! ### Sequencing invariants between the invalidation pass and the update pass -/

/-- every key already reported invalidated is absent from the current cache. -/
def invalidatedAbsent {V O : Type} (s : DispatchState V O) : Prop :=
  ∀ k, DispatchEvent.invalidated k ∈ s.events → k ∉ cacheKeys s.cache

/-- no update-pass `affects` call has happened yet. -/
def noAffectsUpdateEvents {V O : Type} (s : DispatchState V O) : Prop :=
  ∀ qn ks, DispatchEvent.affectsUpdate qn ks ∉ s.events

/-- no `cachedQueryKeys` list handed to an update trigger contains a key that
was invalidated during the same dispatch. -/
def updateKeysAvoidInvalidated {V O : Type} (s : DispatchState V O) : Prop :=
  ∀ qn ks, DispatchEvent.affectsUpdate qn ks ∈ s.events →
    ∀ k, DispatchEvent.invalidated k ∈ s.events → k ∉ ks

theorem pass1_invariant_invalidateKeyStep {V O : Type} (s : DispatchState V O)
    (k : String) (h : invalidatedAbsent s ∧ noAffectsUpdateEvents s) :
    invalidatedAbsent (invalidateKeyStep s k) ∧
      noAffectsUpdateEvents (invalidateKeyStep s k) := by
  constructor
  · intro x hx
    rw [events_invalidateKeyStep] at hx
    rw [cache_invalidateKeyStep]
    rcases List.mem_append.mp hx with hx | hx
    · exact not_mem_cacheKeys_cacheDelete_of_not_mem s.cache x k (h.1 x hx)
    · have hxk : x = k := by
        have := List.mem_singleton.mp hx
        exact (DispatchEvent.invalidated.injEq x k).mp this
      rw [hxk]
      exact not_mem_cacheKeys_cacheDelete s.cache k
  · intro qn ks hmem
    rw [events_invalidateKeyStep] at hmem
    rcases List.mem_append.mp hmem with hmem | hmem
    · exact h.2 qn ks hmem
    · simp at hmem

theorem pass1_invariant_affectsInvalidation {V O : Type} (s : DispatchState V O)
    (qn : String) (h : invalidatedAbsent s ∧ noAffectsUpdateEvents s) :
    invalidatedAbsent { s with events := s.events ++
        [DispatchEvent.affectsInvalidation qn
          ((cacheKeys s.cache).filter (fun k => jsStartsWith k qn))] } ∧
      noAffectsUpdateEvents { s with events := s.events ++
        [DispatchEvent.affectsInvalidation qn
          ((cacheKeys s.cache).filter (fun k => jsStartsWith k qn))] } := by
  constructor
  · intro x hx
    rcases List.mem_append.mp hx with hx | hx
    · exact h.1 x hx
    · simp at hx
  · intro qn2 ks hmem
    rcases List.mem_append.mp hmem with hmem | hmem
    · exact h.2 qn2 ks hmem
    · simp at hmem

theorem pass2_invariant_updateKeyViaTrigger {I V O MI MO : Type}
    (truthyV : V → Bool)
    (registration : RemoteStateCacheContextQueryRegistration I V O MI MO)
    (definition : RemoteStateQueryUpdateTrigger I MI MO O)
    (mutationInput : MI) (mutationOutput : MO) (s : DispatchState V O)
    (k : String) (h : invalidatedAbsent s ∧ updateKeysAvoidInvalidated s) :
    invalidatedAbsent (updateKeyViaTrigger truthyV registration definition
        mutationInput mutationOutput s k) ∧
      updateKeysAvoidInvalidated (updateKeyViaTrigger truthyV registration
        definition mutationInput mutationOutput s k) := by
  have hsub := cacheKeys_updateKeyViaTrigger_subset truthyV registration definition
    mutationInput mutationOutput s k
  have hev : ∀ e, e ∈ (updateKeyViaTrigger truthyV registration definition
      mutationInput mutationOutput s k).events →
      e ∈ s.events ∨ ∃ qn key out, e = DispatchEvent.updateInvoked qn key out := by
    intro e he
    rcases events_updateKeyViaTrigger_cases truthyV registration definition
        mutationInput mutationOutput s k with hc | ⟨v, hc⟩
    · rw [hc] at he
      exact Or.inl he
    · rw [hc] at he
      rcases List.mem_append.mp he with he | he
      · exact Or.inl he
      · exact Or.inr ⟨_, _, _, List.mem_singleton.mp he⟩
  constructor
  · intro x hx
    rcases hev _ hx with hx | ⟨qn, key, out, hx⟩
    · exact fun hmem => h.1 x hx (hsub hmem)
    · simp at hx
  · intro qn ks hmem x hx
    rcases hev _ hmem with hmem | ⟨qn2, key2, out2, hmem⟩
    · rcases hev _ hx with hx | ⟨qn3, key3, out3, hx⟩
      · exact h.2 qn ks hmem x hx
      · simp at hx
    · simp at hmem

theorem pass2_invariant_affectsUpdate {V O : Type} (s : DispatchState V O)
    (qn : String) (h : invalidatedAbsent s ∧ updateKeysAvoidInvalidated s) :
    invalidatedAbsent { s with events := s.events ++
        [DispatchEvent.affectsUpdate qn
          ((cacheKeys s.cache).filter (fun k => jsStartsWith k qn))] } ∧
      updateKeysAvoidInvalidated { s with events := s.events ++
        [DispatchEvent.affectsUpdate qn
          ((cacheKeys s.cache).filter (fun k => jsStartsWith k qn))] } := by
  constructor
  · intro x hx
    rcases List.mem_append.mp hx with hx | hx
    · exact h.1 x hx
    · simp at hx
  · intro qn2 ks hmem x hx
    have hxold : DispatchEvent.invalidated x ∈ s.events := by
      rcases List.mem_append.mp hx with hx | hx
      · exact hx
      · simp at hx
    rcases List.mem_append.mp hmem with hmem | hmem
    · exact h.2 qn2 ks hmem x hxold
    · have heq := List.mem_singleton.mp hmem
      have hks : ks = (cacheKeys s.cache).filter (fun k => jsStartsWith k qn) :=
        ((DispatchEvent.affectsUpdate.injEq qn2 ks qn _).mp heq).2
      rw [hks]
      intro hxin
      exact h.1 x hxold (List.mem_filter.mp hxin).1

theorem onMutationOutput_updateKeysAvoidInvalidated {I V O MI MO : Type}
    (truthyV : V → Bool)
    (registrations : List (RemoteStateCacheContextQueryRegistration I V O MI MO))
    (mutationName : String) (mutationInput : MI) (mutationOutput : MO)
    (cache : Cache V) :
    updateKeysAvoidInvalidated (onMutationOutput truthyV registrations
      mutationName mutationInput mutationOutput cache) := by
  unfold onMutationOutput
  have hinit : invalidatedAbsent (V := V) (O := O) { cache := cache, events := [] } ∧
      noAffectsUpdateEvents (V := V) (O := O) { cache := cache, events := [] } := by
    constructor
    · intro k hk
      exact absurd hk (List.not_mem_nil _)
    · intro qn ks hk
      exact absurd hk (List.not_mem_nil _)
  have hpass1 := foldl_preserves
    (onMutationOutputInvalidationStep mutationName mutationInput mutationOutput)
    (fun b a hb => onMutationOutputInvalidationStep_preserves
      (fun s k hs => pass1_invariant_invalidateKeyStep s k hs)
      (fun s qn hs => pass1_invariant_affectsInvalidation s qn hs)
      mutationName mutationInput mutationOutput b a hb)
    registrations _ hinit
  have hbridge : invalidatedAbsent (registrations.foldl
        (onMutationOutputInvalidationStep mutationName mutationInput mutationOutput)
        { cache := cache, events := [] }) ∧
      updateKeysAvoidInvalidated (registrations.foldl
        (onMutationOutputInvalidationStep mutationName mutationInput mutationOutput)
        { cache := cache, events := [] }) :=
    ⟨hpass1.1, fun qn ks hmem => absurd hmem (hpass1.2 qn ks)⟩
  have hpass2 := foldl_preserves
    (onMutationOutputUpdateStep truthyV mutationName mutationInput mutationOutput)
    (fun b a hb => onMutationOutputUpdateStep_preserves truthyV
      (fun r d mi mo s k hs => pass2_invariant_updateKeyViaTrigger truthyV r d mi mo s k hs)
      (fun s qn hs => pass2_invariant_affectsUpdate s qn hs)
      mutationName mutationInput mutationOutput b a hb)
    registrations _ hbridge
  exact hpass2.2

/-! ### Concrete fixtures used to instantiate the theorems -/

/-- JavaScript truthiness for number-valued caches: `0` is falsy. -/
def truthyNat : Nat → Bool := fun n => !(n == 0)

/-- an invalidation trigger on mutation `m` whose `affects` selects nothing. -/
def trigNoopOnM : RemoteStateQueryInvalidationTrigger Nat Nat Nat :=
  { mutationName := "m", affects := fun _ _ _ => { keys := none, inputs := none } }

/-- an invalidation trigger on mutation `m` whose `affects` selects every
cached query key it is shown. -/
def trigInvAllOnM : RemoteStateQueryInvalidationTrigger Nat Nat Nat :=
  { mutationName := "m",
    affects := fun _ _ cachedQueryKeys => { keys := some cachedQueryKeys, inputs := none } }

/-- an update trigger on mutation `m` whose `affects` selects every cached
query key it is shown and whose `update` keeps the cached output. -/
def trigUpdAllOnM : RemoteStateQueryUpdateTrigger Nat Nat Nat Nat :=
  { mutationName := "m",
    affects := fun _ _ cachedQueryKeys => { keys := some cachedQueryKeys, inputs := none },
    update := fun o _ _ => o }

/-- a registered query named `q` with the invalidate-everything trigger. -/
def regQ : RemoteStateCacheContextQueryRegistration Nat Nat Nat Nat Nat :=
  { name := "q", keySerializationMethod := fun _ => "i",
    invalidatedBy := [trigInvAllOnM], updatedBy := [],
    deserializeValue := id, serializeValue := id }

/-- a registered query named `u` with the update-everything trigger. -/
def regU : RemoteStateCacheContextQueryRegistration Nat Nat Nat Nat Nat :=
  { name := "u", keySerializationMethod := fun _ => "i",
    invalidatedBy := [], updatedBy := [trigUpdAllOnM],
    deserializeValue := id, serializeValue := id }

/-- a registered query named `alpha` with a no-op invalidation trigger. -/
def regAlpha : RemoteStateCacheContextQueryRegistration Nat Nat Nat Nat Nat :=
  { name := "alpha", keySerializationMethod := fun _ => "k",
    invalidatedBy := [trigNoopOnM], updatedBy := [],
    deserializeValue := id, serializeValue := id }

/-- a registered query named `get` with a no-op invalidation trigger. -/
def regGet : RemoteStateCacheContextQueryRegistration Nat Nat Nat Nat Nat :=
  { name := "get", keySerializationMethod := fun _ => "k",
    invalidatedBy := [trigNoopOnM], updatedBy := [],
    deserializeValue := id, serializeValue := id }

/-- a registered query named `getRecipes` with no triggers. -/
def regGetRecipes : RemoteStateCacheContextQueryRegistration Nat Nat Nat Nat Nat :=
  { name := "getRecipes", keySerializationMethod := fun _ => "k",
    invalidatedBy := [], updatedBy := [],
    deserializeValue := id, serializeValue := id }

/-! ### Claim theorems -/

/-- Claim C3: registering a query under a name already present in the
context's queries map fails with a `BadRequestError` — and since the error is
thrown before the map is written, the failed attempt leaves the map exactly as
it was (in this state-passing embedding the error result carries no new map) —
while a registration under a fresh name inserts it. -/
theorem claim3_theorem {I V O MI MO : Type}
    (queries : List (RemoteStateCacheContextQueryRegistration I V O MI MO))
    (registration : RemoteStateCacheContextQueryRegistration I V O MI MO) :
    ((∃ r ∈ queries, r.name = registration.name) →
      ∃ e, registerQueryToRemoteStateContext queries registration = .error e)
  ∧ ((∀ r ∈ queries, r.name ≠ registration.name) →
      registerQueryToRemoteStateContext queries registration = .ok (queries ++ [registration])) := by
  constructor
  · rintro ⟨r, hr, hname⟩
    have hany : queries.any (fun r => r.name == registration.name) = true :=
      List.any_eq_true.mpr ⟨r, hr, beq_iff_eq.mpr hname⟩
    unfold registerQueryToRemoteStateContext
    rw [hany]
    exact ⟨_, rfl⟩
  · intro hfresh
    unfold registerQueryToRemoteStateContext
    have hany : queries.any (fun r => r.name == registration.name) = false := by
      rw [List.any_eq_false]
      intro r hr
      simpa using hfresh r hr
    rw [hany]
    simp

/-- Claim C3 witness: registering `regQ` into a context already holding `regQ`
fails, and registering it into an empty context inserts it. -/
theorem claim3_witness :
    (∃ e, registerQueryToRemoteStateContext [regQ] regQ = .error e)
  ∧ registerQueryToRemoteStateContext ([] : List (RemoteStateCacheContextQueryRegistration Nat Nat Nat Nat Nat)) regQ = .ok [regQ] :=
  ⟨(claim3_theorem [regQ] regQ).1 ⟨regQ, List.mem_singleton.mpr rfl, rfl⟩,
   (claim3_theorem [] regQ).2 (fun r hr => absurd hr (List.not_mem_nil r))⟩

/-- Claim C6: name resolution at registration — when both an intrinsic
function name and an explicit name option are present (truthy) and differ,
registration fails; when exactly one is present, that one becomes the name;
when neither is present, registration fails; when both are present and equal,
that shared name is used. -/
theorem claim6_theorem (operation : String)
    (nameFromFunctionReference nameFromExplicitOptions : Option String) :
    (truthyStr nameFromFunctionReference = true →
      truthyStr nameFromExplicitOptions = true →
      nameFromFunctionReference ≠ nameFromExplicitOptions →
      ∃ e, extractNameFromRegistrationInputs operation nameFromFunctionReference
        nameFromExplicitOptions = .error e)
  ∧ (truthyStr nameFromFunctionReference = true →
      truthyStr nameFromExplicitOptions = false →
      extractNameFromRegistrationInputs operation nameFromFunctionReference
        nameFromExplicitOptions = .ok (nameFromFunctionReference.getD ""))
  ∧ (truthyStr nameFromFunctionReference = false →
      truthyStr nameFromExplicitOptions = true →
      extractNameFromRegistrationInputs operation nameFromFunctionReference
        nameFromExplicitOptions = .ok (nameFromExplicitOptions.getD ""))
  ∧ (truthyStr nameFromFunctionReference = false →
      truthyStr nameFromExplicitOptions = false →
      ∃ e, extractNameFromRegistrationInputs operation nameFromFunctionReference
        nameFromExplicitOptions = .error e)
  ∧ (truthyStr nameFromFunctionReference = true →
      nameFromFunctionReference = nameFromExplicitOptions →
      extractNameFromRegistrationInputs operation nameFromFunctionReference
        nameFromExplicitOptions = .ok (nameFromFunctionReference.getD "")) := by
  refine ⟨?_, ?_, ?_, ?_, ?_⟩
  · intro h1 h2 hne
    have hbeq : (nameFromExplicitOptions == nameFromFunctionReference) = false := by
      simp only [beq_eq_false_iff_ne]
      exact fun heq => hne heq.symm
    unfold extractNameFromRegistrationInputs
    rw [h1, h2, hbeq]
    simp
  · intro h1 h2
    cases nameFromFunctionReference with
    | none => simp [truthyStr] at h1
    | some s =>
        have hs : (s == "") = false := by simpa [truthyStr] using h1
        unfold extractNameFromRegistrationInputs
        rw [h2]
        simp [truthyStr, hs]
  · intro h1 h2
    cases nameFromExplicitOptions with
    | none => simp [truthyStr] at h2
    | some s =>
        have hs : (s == "") = false := by simpa [truthyStr] using h2
        unfold extractNameFromRegistrationInputs
        rw [h1, h2]
        simp [truthyStr, hs, h1]
  · intro h1 h2
    unfold extractNameFromRegistrationInputs
    rw [h1, h2]
    simp only [Bool.false_and, Bool.and_false, if_false]
    cases nameFromExplicitOptions with
    | none => simp [h1]
    | some s =>
        have hs : (s == "") = true := by
          cases hb : s == "" with
          | true => rfl
          | false => simp [truthyStr, hb] at h2
        simp [h1, hs]
  · intro h1 heq
    cases nameFromFunctionReference with
    | none => simp [truthyStr] at h1
    | some s =>
        have hs : (s == "") = false := by simpa [truthyStr] using h1
        unfold extractNameFromRegistrationInputs
        rw [← heq, h1]
        simp [truthyStr, hs]

/-- Claim C6 witness: a function reference named `getRecipes` with no explicit
option resolves to `getRecipes`; an anonymous function with explicit option
`getRecipes` also resolves to it; both present and equal resolves to it. -/
theorem claim6_witness :
    extractNameFromRegistrationInputs "query" (some "getRecipes") none = .ok "getRecipes"
  ∧ extractNameFromRegistrationInputs "query" none (some "getRecipes") = .ok "getRecipes"
  ∧ (∃ e, extractNameFromRegistrationInputs "query" (some "getRecipes") (some "other") = .error e)
  ∧ (∃ e, extractNameFromRegistrationInputs "query" none none = .error e) :=
  ⟨(claim6_theorem ("query") (some "getRecipes") none).2.1 (by decide) (by decide),
   (claim6_theorem ("query") none (some "getRecipes")).2.2.1 (by decide) (by decide),
   (claim6_theorem ("query") (some "getRecipes") (some "other")).1 (by decide) (by decide) (by decide),
   (claim6_theorem ("query") none none).2.2.2.1 (by decide) (by decide)⟩

/-- Claim C7: for a registered mutation whose raw logic resolves with value
`v`, `execute` returns exactly `v`, and the trigger dispatch engine runs
strictly after the raw logic settles (it is applied to the settled output) and
completes before `execute` returns (its finished state is part of the returned
result). -/
theorem claim7_theorem {I V O MI MO E : Type} (truthyV : V → Bool)
    (registrations : List (RemoteStateCacheContextQueryRegistration I V O MI MO))
    (mutationName : String) (logic : MI → Except E MO) (args : MI)
    (cache : Cache V) (v : MO) (h : logic args = .ok v) :
    executeMutation truthyV registrations mutationName logic args cache
      = .ok (v, onMutationOutput truthyV registrations mutationName args v cache) := by
  unfold executeMutation
  rw [h]

/-- Claim C7 witness: a mutation resolving `7` returns `7` together with the
completed dispatch over the registered query `q`. -/
theorem claim7_witness :
    executeMutation truthyNat [regQ] "m"
        (fun _ : Nat => (Except.ok 7 : Except String Nat)) 0 [("q.a", 1)]
      = .ok (7, onMutationOutput truthyNat [regQ] "m" 0 7 [("q.a", 1)]) :=
  claim7_theorem truthyNat [regQ] "m" (fun _ => (Except.ok 7 : Except String Nat))
    0 [("q.a", 1)] 7 rfl

/-- Claim C8: the cache key used by a wrapped query is the query's resolved
name, then the separator `.`, then the result of the underlying
key-serialization applied to the input; and the underlying method resolves to
the user-supplied one when given, else the context default, else the external
default. -/
theorem claim8_theorem {I : Type} (name : String)
    (optionsKey contextDefaultKey : Option (I → String))
    (defaultKeySerializationMethod : I → String) (i : I) :
    keySerializationMethodWithNamespace name
        (keySerializationMethodFromOptions optionsKey contextDefaultKey
          defaultKeySerializationMethod) i
      = name ++ "." ++ keySerializationMethodFromOptions optionsKey
          contextDefaultKey defaultKeySerializationMethod i
  ∧ (∀ f, optionsKey = some f →
      keySerializationMethodFromOptions optionsKey contextDefaultKey
        defaultKeySerializationMethod = f)
  ∧ (optionsKey = none → ∀ f, contextDefaultKey = some f →
      keySerializationMethodFromOptions optionsKey contextDefaultKey
        defaultKeySerializationMethod = f)
  ∧ (optionsKey = none → contextDefaultKey = none →
      keySerializationMethodFromOptions optionsKey contextDefaultKey
        defaultKeySerializationMethod = defaultKeySerializationMethod) := by
  refine ⟨rfl, ?_, ?_, ?_⟩
  · intro f hf
    rw [hf]
    rfl
  · intro h1 f hf
    rw [h1, hf]
    rfl
  · intro h1 h2
    rw [h1, h2]
    rfl

/-- Claim C8 witness: with a user-supplied serialization producing
`for.steak`, the query `queryGetRecipes` caches under
`queryGetRecipes.for.steak`. -/
theorem claim8_witness :
    keySerializationMethodFromOptions (some (fun _ : Nat => "for.steak")) none
        (fun _ : Nat => "default") = (fun _ : Nat => "for.steak")
  ∧ keySerializationMethodWithNamespace "queryGetRecipes"
      (keySerializationMethodFromOptions (some (fun _ : Nat => "for.steak")) none
        (fun _ : Nat => "default")) 0
      = "queryGetRecipes.for.steak" := by
  constructor
  · exact (claim8_theorem ("queryGetRecipes") (some (fun _ : Nat => "for.steak"))
      none (fun _ : Nat => "default") 0).2.1 _ rfl
  · rw [(claim8_theorem ("queryGetRecipes") (some (fun _ : Nat => "for.steak"))
      none (fun _ : Nat => "default") 0).1]
    rfl

/-- Claim C9 (amended): `addTrigger`'s runtime body appends a supplied
`invalidatedBy` trigger to the registration's `invalidatedBy` list and a
supplied `updatedBy` trigger to its `updatedBy` list, preserving insertion
order (push at the end); exclusivity of the two arms is enforced only by the
static `PickOne` argument type — at runtime a call supplying zero arms is a
no-op and a call supplying both arms appends to both lists, neither failing. -/
theorem claim9_theorem {I V O MI MO : Type}
    (registration : RemoteStateCacheContextQueryRegistration I V O MI MO)
    (t : RemoteStateQueryInvalidationTrigger I MI MO)
    (u : RemoteStateQueryUpdateTrigger I MI MO O) :
    addTrigger registration (some t) none
      = { registration with invalidatedBy := registration.invalidatedBy ++ [t] }
  ∧ addTrigger registration none (some u)
      = { registration with updatedBy := registration.updatedBy ++ [u] }
  ∧ addTrigger registration none none = registration
  ∧ addTrigger registration (some t) (some u)
      = { registration with invalidatedBy := registration.invalidatedBy ++ [t],
                            updatedBy := registration.updatedBy ++ [u] } :=
  ⟨rfl, rfl, rfl, rfl⟩

/-- Claim C9 counterexample: a call supplying both arms does not fail at the
call boundary — it returns normally, having appended the invalidation trigger
to `invalidatedBy` and the update trigger to `updatedBy`. -/
theorem claim9_counterexample :
    ((addTrigger regGetRecipes (some trigInvAllOnM) (some trigUpdAllOnM)).invalidatedBy.map
        (fun t => t.mutationName) = ["m"])
  ∧ ((addTrigger regGetRecipes (some trigInvAllOnM) (some trigUpdAllOnM)).updatedBy.map
        (fun t => t.mutationName) = ["m"]) :=
  ⟨rfl, rfl⟩

/-- Claim C1 (amended): a cache key written under query A's namespace
(`A.name ++ "." ++ s`) never appears in the `cachedQueryKeys` passed to a
distinct query B's triggers during dispatch, provided B's name is not a string
prefix of that key — the dispatch filter is `key.startsWith(registration.name)`,
so the guarantee holds exactly when no query's name is a prefix of another
query's namespaced keys. -/
theorem claim1_theorem {I V O MI MO : Type} (truthyV : V → Bool)
    (registrations : List (RemoteStateCacheContextQueryRegistration I V O MI MO))
    (mutationName : String) (mutationInput : MI) (mutationOutput : MO)
    (cache : Cache V) (nameA suffixA nameB : String) (ks : List String)
    (hnot : jsStartsWith (nameA ++ "." ++ suffixA) nameB = false)
    (hev : DispatchEvent.affectsInvalidation nameB ks ∈
        (onMutationOutput truthyV registrations mutationName mutationInput
          mutationOutput cache).events
      ∨ DispatchEvent.affectsUpdate nameB ks ∈
        (onMutationOutput truthyV registrations mutationName mutationInput
          mutationOutput cache).events) :
    (nameA ++ "." ++ suffixA) ∉ ks := by
  intro hmem
  have hns := onMutationOutput_eventsNamespaced truthyV registrations mutationName
    mutationInput mutationOutput cache
  rcases hev with hev | hev
  · have h2 := hns _ hev (nameA ++ "." ++ suffixA) hmem
    rw [hnot] at h2
    exact Bool.false_ne_true h2
  · have h2 := hns _ hev (nameA ++ "." ++ suffixA) hmem
    rw [hnot] at h2
    exact Bool.false_ne_true h2

/-- Claim C1 counterexample: with two registered queries named `get` and
`getRecipes`, the key `getRecipes.x` — written under `getRecipes`'s namespace —
appears in the `cachedQueryKeys` passed to `get`'s invalidation trigger,
because `"getRecipes.x".startsWith("get")` holds. -/
theorem claim1_counterexample :
    regGet.name ≠ regGetRecipes.name
  ∧ "getRecipes.x" = regGetRecipes.name ++ "." ++ "x"
  ∧ DispatchEvent.affectsInvalidation regGet.name ["getRecipes.x"] ∈
      (onMutationOutput truthyNat [regGet, regGetRecipes] "m" 0 0
        [("getRecipes.x", 1)]).events :=
  ⟨by decide, rfl, by decide⟩

/-- Claim C1 witness: with queries `alpha` and `beta`-namespaced data, the key
`beta.j` does not appear in the keys passed to `alpha`'s trigger. -/
theorem claim1_witness :
    jsStartsWith ("beta" ++ "." ++ "j") "alpha" = false
  ∧ DispatchEvent.affectsInvalidation "alpha" ["alpha.k"] ∈
      (onMutationOutput truthyNat [regAlpha] "m" 0 0
        [("alpha.k", 1), ("beta.j", 2)]).events
  ∧ ("beta" ++ "." ++ "j") ∉ ["alpha.k"] :=
  ⟨by decide, by decide,
   claim1_theorem truthyNat [regAlpha] "m" 0 0 [("alpha.k", 1), ("beta.j", 2)]
     "beta" "j" "alpha" ["alpha.k"] (by decide) (Or.inl (by decide))⟩

/-- Claim C2 (code behavior at the failing input): the spec requires trigger
dispatch to run even when the raw mutation logic rejects, but the `execute`
built by `withRemoteStateMutationRegistration` awaits the logic with no
try/catch, so on rejection the error propagates unchanged and
`onMutationOutput` is never reached — even though a matching `invalidatedBy`
trigger is registered whose dispatch would have emptied the cache. -/
theorem claim2_code_behavior :
    executeMutation truthyNat [regQ] "m"
        (fun _ : Nat => (Except.error "boom" : Except String Nat)) 0 [("q.a", 1)]
      = Except.error "boom"
  ∧ cacheKeys (onMutationOutput truthyNat [regQ] "m" 0 0 [("q.a", 1)]).cache = [] :=
  ⟨rfl, by decide⟩

/-- Claim C4 (amended): during the invalidation pass for a mutation execution,
for every registered query the dispatch engine invokes the `affects` function
of the FIRST trigger definition in its `invalidatedBy` list whose mutation name
equals the executed mutation's name (`Array.prototype.find` — later matching
definitions are ignored), and both returned sets of that trigger are honored:
every key in the returned keys list is invalidated directly and every entry in
the returned inputs list is invalidated by recomputing its namespaced key
(union, not exclusive); a query with no matching trigger is skipped
unchanged. -/
theorem claim4_theorem {I V O MI MO : Type} (mutationName : String)
    (mutationInput : MI) (mutationOutput : MO) (st : DispatchState V O)
    (registration : RemoteStateCacheContextQueryRegistration I V O MI MO) :
    (registration.invalidatedBy.find? (fun t => t.mutationName == mutationName) = none →
      onMutationOutputInvalidationStep mutationName mutationInput mutationOutput
        st registration = st)
  ∧ (∀ d, registration.invalidatedBy.find? (fun t => t.mutationName == mutationName) = some d →
      (DispatchEvent.affectsInvalidation registration.name
          ((cacheKeys st.cache).filter (fun k => jsStartsWith k registration.name))
        ∈ (onMutationOutputInvalidationStep mutationName mutationInput
            mutationOutput st registration).events)
      ∧ (∀ k, k ∈ (d.affects mutationInput mutationOutput
            ((cacheKeys st.cache).filter (fun k => jsStartsWith k registration.name))).keys.getD [] →
          k ∉ cacheKeys (onMutationOutputInvalidationStep mutationName
            mutationInput mutationOutput st registration).cache)
      ∧ (∀ i, i ∈ (d.affects mutationInput mutationOutput
            ((cacheKeys st.cache).filter (fun k => jsStartsWith k registration.name))).inputs.getD [] →
          keySerializationMethodWithNamespace registration.name
              registration.keySerializationMethod i
            ∉ cacheKeys (onMutationOutputInvalidationStep mutationName
              mutationInput mutationOutput st registration).cache)) := by
  constructor
  · intro hfind
    unfold onMutationOutputInvalidationStep
    rw [hfind]
  · intro d hfind
    have hmemstep : ∀ (b : DispatchState V O) (a : String),
        DispatchEvent.affectsInvalidation registration.name
          ((cacheKeys st.cache).filter (fun k => jsStartsWith k registration.name)) ∈ b.events →
        DispatchEvent.affectsInvalidation registration.name
          ((cacheKeys st.cache).filter (fun k => jsStartsWith k registration.name)) ∈
          (invalidateKeyStep b a).events := by
      intro b a hb
      rw [events_invalidateKeyStep]
      exact List.mem_append.mpr (Or.inl hb)
    unfold onMutationOutputInvalidationStep
    rw [hfind]
    simp only []
    cases hkeys : (d.affects mutationInput mutationOutput
        ((cacheKeys st.cache).filter (fun k => jsStartsWith k registration.name))).keys with
    | none =>
        cases hinputs : (d.affects mutationInput mutationOutput
            ((cacheKeys st.cache).filter (fun k => jsStartsWith k registration.name))).inputs with
        | none =>
            simp only [hkeys, hinputs]
            refine ⟨List.mem_append.mpr (Or.inr (List.mem_singleton.mpr rfl)), ?_, ?_⟩
            · intro k hk
              exact absurd hk (List.not_mem_nil k)
            · intro i hi
              exact absurd hi (List.not_mem_nil i)
        | some is =>
            simp only [hkeys, hinputs]
            refine ⟨?_, ?_, ?_⟩
            · exact foldl_preserves _ (fun b a hb => hmemstep b _ hb) is _
                (List.mem_append.mpr (Or.inr (List.mem_singleton.mpr rfl)))
            · intro k hk
              exact absurd hk (List.not_mem_nil k)
            · intro i hi
              exact not_mem_cacheKeys_after_foldl_invalidate
                (fun i => keySerializationMethodWithNamespace registration.name
                  registration.keySerializationMethod i) is _ _ (Or.inl ⟨i, hi, rfl⟩)
    | some ks =>
        cases hinputs : (d.affects mutationInput mutationOutput
            ((cacheKeys st.cache).filter (fun k => jsStartsWith k registration.name))).inputs with
        | none =>
            simp only [hkeys, hinputs]
            refine ⟨?_, ?_, ?_⟩
            · exact foldl_preserves _ hmemstep ks _
                (List.mem_append.mpr (Or.inr (List.mem_singleton.mpr rfl)))
            · intro k hk
              exact not_mem_cacheKeys_after_foldl_invalidate (fun x => x) ks _ _
                (Or.inl ⟨k, hk, rfl⟩)
            · intro i hi
              exact absurd hi (List.not_mem_nil i)
        | some is =>
            simp only [hkeys, hinputs]
            refine ⟨?_, ?_, ?_⟩
            · exact foldl_preserves _ (fun b a hb => hmemstep b _ hb) is _
                (foldl_preserves _ hmemstep ks _
                  (List.mem_append.mpr (Or.inr (List.mem_singleton.mpr rfl))))
            · intro k hk
              exact not_mem_cacheKeys_after_foldl_invalidate
                (fun i => keySerializationMethodWithNamespace registration.name
                  registration.keySerializationMethod i) is _ _
                (Or.inr (not_mem_cacheKeys_after_foldl_invalidate (fun x => x) ks _ _
                  (Or.inl ⟨k, hk, rfl⟩)))
            · intro i hi
              exact not_mem_cacheKeys_after_foldl_invalidate
                (fun i => keySerializationMethodWithNamespace registration.name
                  registration.keySerializationMethod i) is _ _ (Or.inl ⟨i, hi, rfl⟩)

/-- a first invalidation trigger on mutation `m` selecting nothing. -/
def trigT1 : RemoteStateQueryInvalidationTrigger Nat Nat Nat :=
  { mutationName := "m", affects := fun _ _ _ => { keys := some [], inputs := none } }

/-- a second invalidation trigger on the same mutation `m`, demanding the key
`q.a` be invalidated. -/
def trigT2 : RemoteStateQueryInvalidationTrigger Nat Nat Nat :=
  { mutationName := "m", affects := fun _ _ _ => { keys := some ["q.a"], inputs := none } }

/-- a query registration carrying both triggers for mutation `m`. -/
def regQ2 : RemoteStateCacheContextQueryRegistration Nat Nat Nat Nat Nat :=
  { name := "q", keySerializationMethod := fun _ => "i",
    invalidatedBy := [trigT1, trigT2], updatedBy := [],
    deserializeValue := id, serializeValue := id }

/-- Claim C4 counterexample: with two trigger definitions for the same
mutation `m` on one query, the second matching trigger — which demands key
`q.a` be invalidated — is ignored (`find` stops at the first match), so `q.a`
is still cached after the invalidation pass, contradicting "every trigger
definition ... has its affects function invoked". -/
theorem claim4_counterexample :
    trigT2.mutationName = "m"
  ∧ "q.a" ∈ (trigT2.affects 0 0 ["q.a"]).keys.getD []
  ∧ "q.a" ∈ cacheKeys (onMutationOutputInvalidationStep "m" 0 0
      { cache := [("q.a", 1)], events := [] } regQ2).cache :=
  ⟨rfl, by decide, by decide⟩

/-- an invalidation trigger on mutation `m` returning both a direct key and an
input (whose namespaced key must be recomputed). -/
def trigBothOnM : RemoteStateQueryInvalidationTrigger Nat Nat Nat :=
  { mutationName := "m", affects := fun _ _ _ => { keys := some ["q.a"], inputs := some [5] } }

/-- a query registration carrying the keys-and-inputs trigger. -/
def regQBoth : RemoteStateCacheContextQueryRegistration Nat Nat Nat Nat Nat :=
  { name := "q", keySerializationMethod := fun _ => "i",
    invalidatedBy := [trigBothOnM], updatedBy := [],
    deserializeValue := id, serializeValue := id }

/-- Claim C4 witness: for the query `q` with a trigger returning key `q.a` and
input `5` (namespaced key `q.i`), the invalidation pass invokes `affects` with
the namespaced key list and removes both `q.a` and `q.i` from the cache. -/
theorem claim4_witness :
    (DispatchEvent.affectsInvalidation "q" ["q.a", "q.i", "q.z"]
        ∈ (onMutationOutputInvalidationStep "m" 0 0
            { cache := [("q.a", 1), ("q.i", 2), ("q.z", 3)], events := [] } regQBoth).events)
  ∧ "q.a" ∉ cacheKeys (onMutationOutputInvalidationStep "m" 0 0
      { cache := [("q.a", 1), ("q.i", 2), ("q.z", 3)], events := [] } regQBoth).cache
  ∧ keySerializationMethodWithNamespace regQBoth.name regQBoth.keySerializationMethod 5
      ∉ cacheKeys (onMutationOutputInvalidationStep "m" 0 0
        { cache := [("q.a", 1), ("q.i", 2), ("q.z", 3)], events := [] } regQBoth).cache := by
  have h := (claim4_theorem ("m") 0 0
    { cache := [("q.a", 1), ("q.i", 2), ("q.z", 3)], events := [] } regQBoth).2 trigBothOnM rfl
  exact ⟨h.1, h.2.1 "q.a" (by decide), h.2.2 5 (by decide)⟩

/-- Claim C5 (amended): for an affected key with no valid cached value (cache
miss), the user-supplied `update` transform is never invoked; when a valid
cached value exists that is moreover truthy, the `update` transform is invoked
and receives the cached value deserialized with the query's configured
value-deserialization; a valid-but-falsy cached value (the guard is the
JavaScript truthiness test `cachedValue ? ... : undefined`) also skips the
`update` transform. -/
theorem claim5_theorem {I V O MI MO : Type} (truthyV : V → Bool)
    (registration : RemoteStateCacheContextQueryRegistration I V O MI MO)
    (definition : RemoteStateQueryUpdateTrigger I MI MO O)
    (mutationInput : MI) (mutationOutput : MO) (s : DispatchState V O)
    (k : String) :
    (cacheGet s.cache k = none →
      (updateKeyViaTrigger truthyV registration definition mutationInput
        mutationOutput s k).events = s.events)
  ∧ (∀ v, cacheGet s.cache k = some v → truthyV v = false →
      (updateKeyViaTrigger truthyV registration definition mutationInput
        mutationOutput s k).events = s.events)
  ∧ (∀ v, cacheGet s.cache k = some v → truthyV v = true →
      (updateKeyViaTrigger truthyV registration definition mutationInput
        mutationOutput s k).events = s.events ++
        [DispatchEvent.updateInvoked registration.name k
          (registration.deserializeValue v)]) := by
  refine ⟨?_, ?_, ?_⟩
  · intro hget
    unfold updateKeyViaTrigger
    rw [hget]
  · intro v hget ht
    unfold updateKeyViaTrigger
    rw [hget]
    simp [ht]
  · intro v hget ht
    unfold updateKeyViaTrigger
    rw [hget]
    simp [ht]

/-- Claim C5 witness: updating the missing key `nope` invokes no `update`
transform (no event), while updating key `u.b` holding the truthy value `2`
invokes the transform with the deserialized cached output `2`. -/
theorem claim5_witness :
    (updateKeyViaTrigger truthyNat regU trigUpdAllOnM 0 0
      { cache := [("u.b", 2)], events := [] } "nope").events = []
  ∧ (updateKeyViaTrigger truthyNat regU trigUpdAllOnM 0 0
      { cache := [("u.b", 2)], events := [] } "u.b").events
      = [DispatchEvent.updateInvoked "u" "u.b" 2] :=
  ⟨(claim5_theorem truthyNat regU trigUpdAllOnM 0 0
      { cache := [("u.b", 2)], events := [] } "nope").1 (by decide),
   (claim5_theorem truthyNat regU trigUpdAllOnM 0 0
      { cache := [("u.b", 2)], events := [] } "u.b").2.2 2 (by decide) (by decide)⟩

/-- Claim C5 counterexample: the key `u.b` holds the valid cached value `0`,
yet — because `0` is falsy in JavaScript and the guard is truthiness, not
presence — the user's `update` transform is not invoked for it, contradicting
"when a valid cached value does exist, the update function receives the cached
value". -/
theorem claim5_counterexample :
    cacheGet [("u.b", 0)] "u.b" = some 0
  ∧ (updateKeyViaTrigger truthyNat regU trigUpdAllOnM 0 0
      { cache := [("u.b", 0)], events := [] } "u.b").events = [] :=
  ⟨rfl, by decide⟩

/-- Claim C10: for every mutation execution, the dispatch engine's update pass
never begins until every invalidation launched in the invalidation pass has
settled — consequently no update trigger observes, in its `cachedQueryKeys`, a
key invalidated by the same dispatch. -/
theorem claim10_theorem {I V O MI MO : Type} (truthyV : V → Bool)
    (registrations : List (RemoteStateCacheContextQueryRegistration I V O MI MO))
    (mutationName : String) (mutationInput : MI) (mutationOutput : MO)
    (cache : Cache V) (k qn : String) (ks : List String)
    (hinv : DispatchEvent.invalidated k ∈ (onMutationOutput truthyV registrations
      mutationName mutationInput mutationOutput cache).events)
    (hupd : DispatchEvent.affectsUpdate qn ks ∈ (onMutationOutput truthyV
      registrations mutationName mutationInput mutationOutput cache).events) :
    k ∉ ks :=
  onMutationOutput_updateKeysAvoidInvalidated truthyV registrations mutationName
    mutationInput mutationOutput cache qn ks hupd k hinv

/-- Claim C10 witness: the mutation `m` invalidates `q.a` (query `q`) and then
updates query `u`; the update trigger's `cachedQueryKeys` — `["u.b"]` — does
not contain the invalidated key `q.a`. -/
theorem claim10_witness :
    DispatchEvent.invalidated "q.a" ∈
      (onMutationOutput truthyNat [regQ, regU] "m" 0 0 [("q.a", 1), ("u.b", 2)]).events
  ∧ DispatchEvent.affectsUpdate "u" ["u.b"] ∈
      (onMutationOutput truthyNat [regQ, regU] "m" 0 0 [("q.a", 1), ("u.b", 2)]).events
  ∧ "q.a" ∉ ["u.b"] :=
  ⟨by decide, by decide,
   claim10_theorem truthyNat [regQ, regU] "m" 0 0 [("q.a", 1), ("u.b", 2)]
     "q.a" "u" ["u.b"] (by decide) (by decide)⟩

end WithRemoteStateCaching
